import Mathlib

/-!
Shallow embedding of the XLEAP-SBS color balance validator
(src/core/validator.py) and proofs about it.

Python strings are embedded as `List Char` (a Python `str` is a sequence
of characters), so that every operation of the program reduces inside
the kernel.  `pyStrip`, `pyUpper`, `pyContains` and `splitChar` embed
`str.strip()`, `str.upper()`, the `in` test and `str.split(sep)` for a
one-character separator.

Python functions that can raise (KeyError from direct `XLEAP_COLORS[b]`
indexing, IndexError from `idx[pos]`) are embedded as Option-returning
functions, `none` standing for a raised exception.  Python's lazy
`any(...)` generator is embedded as a short-circuiting recursion so that
a KeyError is raised only if the offending base is actually reached.
-/

namespace XLeap

/-- `str.strip()` character class: ASCII whitespace stripped by Python. -/
def pyIsSpace (c : Char) : Bool :=
  c == ' ' || c == '\t' || c == '\n' || c == '\r' || c == '\x0b' || c == '\x0c'

/-- `text.strip()`: drop leading and trailing whitespace. -/
def pyStrip (l : List Char) : List Char :=
  ((l.dropWhile pyIsSpace).reverse.dropWhile pyIsSpace).reverse

/-- `text.upper()` on ASCII nucleotide text. -/
def pyUpper (l : List Char) : List Char :=
  l.map Char.toUpper

/-- `sep in text`. -/
def pyContains (l : List Char) (c : Char) : Bool :=
  l.any (fun x => x == c)

/-- `text.split(sep)` for a one-character separator: no collapsing of
adjacent separators, and the empty text yields `[[]]`, as in Python. -/
def splitChar (sep : Char) : List Char → List (List Char)
  | [] => [[]]
  | c :: rest =>
    let r := splitChar sep rest
    if c == sep then [] :: r
    else
      match r with
      | [] => [[c]]
      | t :: ts => (c :: t) :: ts

/-- Channel profile of a nucleotide: `XLEAP_COLORS` entry values. -/
structure ColorProfile where
  blue : Bool
  green : Bool
  label : String
deriving DecidableEq, Repr

/-- The `XLEAP_COLORS` dict.  A key outside A/C/G/T has no entry;
direct indexing there raises, hence `Option`. -/
def XLEAP_COLORS : Char → Option ColorProfile
  | 'A' => some { blue := true,  green := false, label := "Blue only" }
  | 'C' => some { blue := true,  green := true,  label := "Both (dual)" }
  | 'G' => some { blue := false, green := false, label := "Dark (no signal)" }
  | 'T' => some { blue := false, green := true,  label := "Green only" }
  | _   => none

/-- `PositionResult` dataclass. -/
structure PositionResult where
  position : Nat
  bases : List Char
  has_blue : Bool
  has_green : Bool
  is_balanced : Bool
  unique_bases : Nat
  recommendation : Option String := none
deriving DecidableEq, Repr

/-- `ValidationResult` dataclass. -/
structure ValidationResult where
  is_valid : Bool
  total_positions : Nat
  positions : List PositionResult
  failed_positions : List Nat
  warnings : List String
  summary : String
deriving DecidableEq, Repr

/-- One row of the dict list produced by `get_color_balance_table`;
`base_counts` keeps the dict as an association list over A,C,G,T. -/
structure BalanceTableRow where
  position : Nat
  bases : List Char
  base_counts : List (Char × Nat)
  blue_count : Nat
  green_count : Nat
  has_blue : Bool
  has_green : Bool
  is_balanced : Bool
  status : String
deriving DecidableEq, Repr

/-- The character test `base in 'ACGT'` of the parser. -/
def isACGT (c : Char) : Bool :=
  c == 'A' || c == 'C' || c == 'G' || c == 'T'

/-- Separator selection phase of `parse_indexes`: the assignment of
`raw_indexes` from the stripped text (newline, else comma, else tab,
else the whole stripped text as one candidate). -/
def rawTokens (input_text : List Char) : List (List Char) :=
  let text := pyStrip input_text
  if pyContains text '\n' then splitChar '\n' text
  else if pyContains text ',' then splitChar ',' text
  else if pyContains text '\t' then splitChar '\t' text
  else [text]

/-- Cleaning loop of `parse_indexes`: strip and uppercase each candidate,
skip empties, keep only candidates whose characters all lie in ACGT. -/
def cleanLoop : List (List Char) → List (List Char)
  | [] => []
  | idx :: rest =>
    let cleaned := pyUpper (pyStrip idx)
    if cleaned = [] then cleanLoop rest
    else if cleaned.all isACGT then cleaned :: cleanLoop rest
    else cleanLoop rest

/-- `parse_indexes`. -/
def parse_indexes (input_text : List Char) : List (List Char) :=
  cleanLoop (rawTokens input_text)

/-- `get_color_profile`: defensive lookup with the both-false Unknown
default; never fails. -/
def get_color_profile (base : Char) : ColorProfile :=
  (XLEAP_COLORS base.toUpper).getD { blue := false, green := false, label := "Unknown" }

/-- `any(XLEAP_COLORS[b][channel] for b in bases)`: lazy, short-circuits
at the first `true`, raises (`none`) at the first base with no profile
reached before that. -/
def anySignal (channel : ColorProfile → Bool) : List Char → Option Bool
  | [] => some false
  | b :: rest =>
    match XLEAP_COLORS b with
    | none => none
    | some p => if channel p then some true else anySignal channel rest

/-- `sum(1 for b in bases if XLEAP_COLORS[b][channel])`: raises (`none`)
if any base lacks a profile, since the sum consumes the whole list. -/
def countSignal (channel : ColorProfile → Bool) : List Char → Option Nat
  | [] => some 0
  | b :: rest =>
    match XLEAP_COLORS b with
    | none => none
    | some p =>
      match countSignal channel rest with
      | none => none
      | some n => some (if channel p then n + 1 else n)

/-- Recommendation text for the all-dark case. -/
def recDark (position : Nat) : String :=
  "Position " ++ toString (position + 1) ++ ": All bases are G (dark). Add indexes with A, C, or T."

/-- Recommendation text when no base has blue signal. -/
def recNoBlue (position : Nat) : String :=
  "Position " ++ toString (position + 1) ++ ": No blue signal. Add indexes with A or C."

/-- Recommendation text when no base has green signal. -/
def recNoGreen (position : Nat) : String :=
  "Position " ++ toString (position + 1) ++ ": No green signal. Add indexes with C or T."

/-- Recommendation text for the low-diversity case. -/
def recLowDiversity (position : Nat) (unique_bases : Nat) : String :=
  "Position " ++ toString (position + 1) ++ ": Low diversity (" ++ toString unique_bases ++ " unique base). Consider more varied indexes."

/-- `check_position_balance`.  `none` models the KeyError raised by the
direct `XLEAP_COLORS[b]` indexing on a base without a profile. -/
def check_position_balance (position : Nat) (bases : List Char) : Option PositionResult := do
  let has_blue ← anySignal (fun p => p.blue) bases
  let has_green ← anySignal (fun p => p.green) bases
  let unique_bases := bases.dedup.length
  let is_balanced := has_blue && has_green
  let recommendation : Option String :=
    if !is_balanced then
      if !has_blue && !has_green then some (recDark position)
      else if !has_blue then some (recNoBlue position)
      else if !has_green then some (recNoGreen position)
      else none
    else if unique_bases < 2 then some (recLowDiversity position unique_bases)
    else none
  some { position := position + 1, bases := bases, has_blue := has_blue,
         has_green := has_green, is_balanced := is_balanced,
         unique_bases := unique_bases, recommendation := recommendation }

/-- The comprehension `[idx[pos] for idx in indexes]`: `none` models the
IndexError raised when `pos` is out of range for some sequence. -/
def columnLoop (pos : Nat) : List (List Char) → Option (List Char)
  | [] => some []
  | idx :: rest =>
    match idx.get? pos with
    | none => none
    | some c =>
      match columnLoop pos rest with
      | none => none
      | some cs => some (c :: cs)

/-- Per-position loop of `validate_indexes` over the list of positions:
gathers the column `[idx[pos] for idx in indexes]`, analyzes it, and
accumulates (positions, failed_positions, warnings) in loop order. -/
def posLoop (indexes : List (List Char)) : List Nat → Option (List PositionResult × List Nat × List String)
  | [] => some ([], [], [])
  | pos :: rest => do
    let bases ← columnLoop pos indexes
    let result ← check_position_balance pos bases
    let (positions, failed, warns) ← posLoop indexes rest
    let failed := if result.is_balanced = false then result.position :: failed else failed
    let warns :=
      match result.recommendation with
      | some r => r :: warns
      | none => warns
    some (result :: positions, failed, warns)

/-- The warning inserted at the front when fewer than 2 indexes are given. -/
def singleIndexWarning : String :=
  "Only 1 index provided. Color balance requires multiple pooled samples."

/-- Deterministic rendering of Python's `{…}` set display for the set of
distinct lengths, in first-occurrence order. -/
def renderLengthSet (lengths : List Nat) : String :=
  "\x7b" ++ String.intercalate ", " (lengths.map toString) ++ "\x7d"

/-- The length-mismatch warning string. -/
def lengthMismatchWarning (lengths : List Nat) : String :=
  "Indexes have different lengths: " ++ renderLengthSet lengths ++ ". All indexes must be the same length."

/-- `validate_indexes`.  The set of lengths is embedded as the dedup of
the length list (first-occurrence order).  `none` models a raised
KeyError from the per-position analysis. -/
def validate_indexes (indexes : List (List Char)) : Option ValidationResult :=
  if indexes = [] then
    some { is_valid := false, total_positions := 0, positions := [], failed_positions := [],
           warnings := ["No indexes provided."], summary := "No indexes to validate." }
  else
    let lengths := (indexes.map List.length).dedup
    if lengths.length > 1 then
      some { is_valid := false, total_positions := 0, positions := [], failed_positions := [],
             warnings := [lengthMismatchWarning lengths], summary := "Index length mismatch." }
    else
      let index_length := (indexes.headD []).length
      match posLoop indexes (List.range index_length) with
      | none => none
      | some (positions, failed_positions, posWarnings) =>
        let warnings :=
          if indexes.length < 2 then singleIndexWarning :: posWarnings else posWarnings
        let is_valid : Bool := failed_positions.length == 0
        let summary :=
          if is_valid then
            if warnings.isEmpty then
              "PASS. All " ++ toString index_length ++ " positions are color-balanced."
            else
              "PASS with warnings. All " ++ toString index_length ++ " positions are color-balanced."
          else
            "FAIL. " ++ toString failed_positions.length ++ " of " ++ toString index_length ++ " positions lack color balance."
        some { is_valid := is_valid, total_positions := index_length, positions := positions,
               failed_positions := failed_positions, warnings := warnings, summary := summary }

/-- `validate_from_text`. -/
def validate_from_text (input_text : List Char) : Option ValidationResult :=
  validate_indexes (parse_indexes input_text)

/-- The dict comprehension over A,C,G,T counting occurrences at a position. -/
def countsACGT (bases : List Char) : List (Char × Nat) :=
  ['A', 'C', 'G', 'T'].map (fun b => (b, bases.count b))

/-- Per-position loop of `get_color_balance_table`: one table row per
position, appended in loop order. -/
def tableLoop (indexes : List (List Char)) : List Nat → Option (List BalanceTableRow)
  | [] => some []
  | pos :: rest => do
    let bases ← columnLoop pos indexes
    let blue_count ← countSignal (fun p => p.blue) bases
    let green_count ← countSignal (fun p => p.green) bases
    let has_blue : Bool := decide (blue_count > 0)
    let has_green : Bool := decide (green_count > 0)
    let row : BalanceTableRow :=
      { position := pos + 1, bases := bases, base_counts := countsACGT bases,
        blue_count := blue_count, green_count := green_count,
        has_blue := has_blue, has_green := has_green,
        is_balanced := has_blue && has_green,
        status := if has_blue && has_green then "pass" else "fail" }
    let rows ← tableLoop indexes rest
    some (row :: rows)

/-- `get_color_balance_table`.  `none` models a raised IndexError
(ragged input) or KeyError (base without a profile). -/
def get_color_balance_table (indexes : List (List Char)) : Option (List BalanceTableRow) :=
  if indexes = [] then some []
  else
    let index_length := (indexes.headD []).length
    tableLoop indexes (List.range index_length)

end XLeap

namespace XLeap

/-! ### Characterizations of the per-position analysis -/

/-- A base carries blue signal iff it is A or C. -/
def hasBlueB (bases : List Char) : Bool :=
  bases.any (fun c => c == 'A' || c == 'C')

/-- A base carries green signal iff it is C or T. -/
def hasGreenB (bases : List Char) : Bool :=
  bases.any (fun c => c == 'C' || c == 'T')

/-- The recommendation that `check_position_balance` computes, as a total
function of the column (meaningful when every base is in ACGT). -/
def recOf (position : Nat) (bases : List Char) : Option String :=
  if !(hasBlueB bases && hasGreenB bases) then
    if !hasBlueB bases && !hasGreenB bases then some (recDark position)
    else if !hasBlueB bases then some (recNoBlue position)
    else if !hasGreenB bases then some (recNoGreen position)
    else none
  else if bases.dedup.length < 2 then some (recLowDiversity position bases.dedup.length)
  else none

/-- The `PositionResult` that `check_position_balance` returns on an
all-ACGT column. -/
def canonPB (position : Nat) (bases : List Char) : PositionResult :=
  { position := position + 1, bases := bases, has_blue := hasBlueB bases,
    has_green := hasGreenB bases, is_balanced := hasBlueB bases && hasGreenB bases,
    unique_bases := bases.dedup.length, recommendation := recOf position bases }

theorem isACGT_cases {c : Char} (h : isACGT c = true) :
    c = 'A' ∨ c = 'C' ∨ c = 'G' ∨ c = 'T' := by
  simpa [isACGT, or_assoc] using h

theorem anySignal_blue {bases : List Char} (h : ∀ c ∈ bases, isACGT c = true) :
    anySignal (fun p => p.blue) bases = some (hasBlueB bases) := by
  induction bases with
  | nil => rfl
  | cons b rest ih =>
    have hrest := ih (fun c hc => h c (by simp [hc]))
    rcases isACGT_cases (h b (by simp)) with hb | hb | hb | hb <;>
      subst hb <;> simp [anySignal, XLEAP_COLORS, hasBlueB, List.any_cons] <;>
      simpa [hasBlueB] using hrest

theorem anySignal_green {bases : List Char} (h : ∀ c ∈ bases, isACGT c = true) :
    anySignal (fun p => p.green) bases = some (hasGreenB bases) := by
  induction bases with
  | nil => rfl
  | cons b rest ih =>
    have hrest := ih (fun c hc => h c (by simp [hc]))
    rcases isACGT_cases (h b (by simp)) with hb | hb | hb | hb <;>
      subst hb <;> simp [anySignal, XLEAP_COLORS, hasGreenB, List.any_cons] <;>
      simpa [hasGreenB] using hrest

theorem check_eq {bases : List Char} (position : Nat)
    (h : ∀ c ∈ bases, isACGT c = true) :
    check_position_balance position bases = some (canonPB position bases) := by
  simp [check_position_balance, anySignal_blue h, anySignal_green h, canonPB, recOf]

end XLeap

namespace XLeap

/-! ### Columns and the per-position loop -/

/-- Total description of the column `[idx[pos] for idx in indexes]`,
meaningful when `pos` is in range for every sequence. -/
def colD (indexes : List (List Char)) (pos : Nat) : List Char :=
  indexes.map (fun idx => idx.getD pos 'A')

theorem getQ_eq_getD {idx : List Char} {pos : Nat} (h1 : pos < idx.length) :
    idx.get? pos = some (idx.getD pos 'A') := by
  cases heq : idx.get? pos with
  | none =>
    have := List.get?_eq_none.mp heq
    omega
  | some v =>
    rw [List.getD_eq_get? , heq]
    rfl

theorem columnLoop_eq {indexes : List (List Char)} {pos : Nat}
    (h : ∀ idx ∈ indexes, pos < idx.length) :
    columnLoop pos indexes = some (colD indexes pos) := by
  induction indexes with
  | nil => rfl
  | cons idx rest ih =>
    have h2 := ih (fun i hi => h i (by simp [hi]))
    have h3 := getQ_eq_getD (h idx (by simp))
    simp only [columnLoop, h3, h2, colD, List.map_cons]

theorem colD_valid {indexes : List (List Char)} {pos : Nat} {L : Nat}
    (hlen : ∀ idx ∈ indexes, idx.length = L) (hpos : pos < L)
    (hval : ∀ idx ∈ indexes, ∀ c ∈ idx, isACGT c = true) :
    ∀ c ∈ colD indexes pos, isACGT c = true := by
  intro c hc
  simp only [colD, List.mem_map] at hc
  obtain ⟨idx, hidx, hgd⟩ := hc
  have hlt : pos < idx.length := by rw [hlen idx hidx]; exact hpos
  have hmem : idx.getD pos 'A' ∈ idx := by
    rw [List.getD_eq_get idx 'A' hlt]
    exact List.get_mem idx pos hlt
  exact hval idx hidx c (hgd ▸ hmem)

theorem posLoop_eq {indexes : List (List Char)} {L : Nat}
    (hlen : ∀ idx ∈ indexes, idx.length = L)
    (hval : ∀ idx ∈ indexes, ∀ c ∈ idx, isACGT c = true) :
    ∀ poss : List Nat, (∀ p ∈ poss, p < L) →
      posLoop indexes poss = some
        (poss.map (fun p => canonPB p (colD indexes p)),
         ((poss.map (fun p => canonPB p (colD indexes p))).filter
             (fun r => !r.is_balanced)).map (fun r => r.position),
         (poss.map (fun p => canonPB p (colD indexes p))).filterMap
             (fun r => r.recommendation)) := by
  intro poss hposs
  induction poss with
  | nil => rfl
  | cons pos rest ih =>
    have hpos : pos < L := hposs pos (by simp)
    have hcol : columnLoop pos indexes = some (colD indexes pos) :=
      columnLoop_eq (fun idx hi => by rw [hlen idx hi]; exact hpos)
    have hcheck := check_eq pos (colD_valid hlen hpos hval)
    have ihh := ih (fun p hp => hposs p (by simp [hp]))
    cases hb : (canonPB pos (colD indexes pos)).is_balanced <;>
      cases hr : (canonPB pos (colD indexes pos)).recommendation <;>
        simp [posLoop, hcol, hcheck, ihh, List.filter_cons, List.filterMap_cons, hb, hr]

end XLeap

namespace XLeap

/-! ### The aggregate validator on well-formed input -/

theorem dedup_len_le_one {L : Nat} :
    ∀ xs : List Nat, (∀ x ∈ xs, x = L) → xs.dedup.length ≤ 1 := by
  intro xs h
  induction xs with
  | nil => simp
  | cons a t ih =>
    have ha : a = L := h a (by simp)
    by_cases hmem : a ∈ t
    · rw [List.dedup_cons_of_mem hmem]
      exact ih (fun x hx => h x (by simp [hx]))
    · rw [List.dedup_cons_of_not_mem hmem]
      have ht : t = [] := by
        cases t with
        | nil => rfl
        | cons b t2 =>
          exfalso
          have hb : b = L := h b (by simp)
          exact hmem (by simp [ha, hb])
      subst ht
      simp

theorem eq_of_dedup_len {xs : List Nat} (h : ¬ xs.dedup.length > 1) :
    ∀ a ∈ xs, ∀ b ∈ xs, a = b := by
  intro a ha b hb
  have ha2 : a ∈ xs.dedup := List.mem_dedup.mpr ha
  have hb2 : b ∈ xs.dedup := List.mem_dedup.mpr hb
  push_neg at h
  cases hd : xs.dedup with
  | nil => rw [hd] at ha2; simp at ha2
  | cons z t =>
    rw [hd] at ha2 hb2 h
    cases t with
    | nil =>
      simp at ha2 hb2
      rw [ha2, hb2]
    | cons w t2 => simp at h

/-- The `ValidationResult` that `validate_indexes` returns on a non-empty
collection of equal-length all-ACGT sequences of common length `L`. -/
def validateResult (indexes : List (List Char)) (L : Nat) : ValidationResult :=
  let positions := (List.range L).map (fun p => canonPB p (colD indexes p))
  let failed := (positions.filter (fun r => !r.is_balanced)).map (fun r => r.position)
  let posW := positions.filterMap (fun r => r.recommendation)
  let warnings := if indexes.length < 2 then singleIndexWarning :: posW else posW
  let is_valid : Bool := failed.length == 0
  { is_valid := is_valid, total_positions := L, positions := positions,
    failed_positions := failed, warnings := warnings,
    summary :=
      if is_valid then
        if warnings.isEmpty then
          "PASS. All " ++ toString L ++ " positions are color-balanced."
        else
          "PASS with warnings. All " ++ toString L ++ " positions are color-balanced."
      else
        "FAIL. " ++ toString failed.length ++ " of " ++ toString L ++ " positions lack color balance." }

theorem validate_eq {indexes : List (List Char)} {L : Nat}
    (hne : indexes ≠ [])
    (hlen : ∀ idx ∈ indexes, idx.length = L)
    (hval : ∀ idx ∈ indexes, ∀ c ∈ idx, isACGT c = true) :
    validate_indexes indexes = some (validateResult indexes L) := by
  obtain ⟨i0, rest, rfl⟩ := List.exists_cons_of_ne_nil hne
  have hL : i0.length = L := hlen i0 (by simp)
  have hded : ¬ ((i0 :: rest).map List.length).dedup.length > 1 := by
    have : ∀ x ∈ (i0 :: rest).map List.length, x = L := by
      intro x hx
      simp only [List.mem_map] at hx
      obtain ⟨idx, hidx, hxl⟩ := hx
      rw [← hxl]
      exact hlen idx hidx
    have := dedup_len_le_one _ this
    omega
  have hloop := posLoop_eq hlen hval (List.range L) (fun p hp => List.mem_range.mp hp)
  simp only [validate_indexes, if_neg (by simp : ¬ (i0 :: rest = [])), if_neg hded,
    List.headD_cons, hL, hloop, validateResult]

end XLeap

namespace XLeap

/-! ### The table builder on well-formed input -/

theorem countSignal_blue {bases : List Char} (h : ∀ c ∈ bases, isACGT c = true) :
    countSignal (fun p => p.blue) bases =
      some (bases.countP (fun c => c == 'A' || c == 'C')) := by
  induction bases with
  | nil => rfl
  | cons b rest ih =>
    have hrest := ih (fun c hc => h c (by simp [hc]))
    rcases isACGT_cases (h b (by simp)) with hb | hb | hb | hb <;>
      subst hb <;> simp [countSignal, XLEAP_COLORS, hrest, List.countP_cons]

theorem countSignal_green {bases : List Char} (h : ∀ c ∈ bases, isACGT c = true) :
    countSignal (fun p => p.green) bases =
      some (bases.countP (fun c => c == 'C' || c == 'T')) := by
  induction bases with
  | nil => rfl
  | cons b rest ih =>
    have hrest := ih (fun c hc => h c (by simp [hc]))
    rcases isACGT_cases (h b (by simp)) with hb | hb | hb | hb <;>
      subst hb <;> simp [countSignal, XLEAP_COLORS, hrest, List.countP_cons]

theorem decide_countP_pos (p : Char → Bool) (l : List Char) :
    decide (l.countP p > 0) = l.any p := by
  cases hl : l.any p with
  | false =>
    have h0 : l.countP p = 0 := by
      rw [List.countP_eq_zero]
      intro a ha
      have := List.any_eq_false.mp hl a ha
      simp [this]
    simp [h0]
  | true =>
    obtain ⟨a, ha, hpa⟩ := List.any_eq_true.mp hl
    have : 0 < l.countP p := List.countP_pos.mpr ⟨a, ha, hpa⟩
    simp [this]

/-- The `BalanceTableRow` that `get_color_balance_table` produces at an
in-range all-ACGT position. -/
def canonRow (indexes : List (List Char)) (pos : Nat) : BalanceTableRow :=
  let bases := colD indexes pos
  let blue_count := bases.countP (fun c => c == 'A' || c == 'C')
  let green_count := bases.countP (fun c => c == 'C' || c == 'T')
  { position := pos + 1, bases := bases, base_counts := countsACGT bases,
    blue_count := blue_count, green_count := green_count,
    has_blue := decide (blue_count > 0), has_green := decide (green_count > 0),
    is_balanced := decide (blue_count > 0) && decide (green_count > 0),
    status := if decide (blue_count > 0) && decide (green_count > 0) then "pass" else "fail" }

theorem canonRow_balanced (indexes : List (List Char)) (pos : Nat) :
    (canonRow indexes pos).is_balanced = (canonPB pos (colD indexes pos)).is_balanced := by
  simp only [canonRow, canonPB, hasBlueB, hasGreenB, decide_countP_pos]

theorem tableLoop_eq {indexes : List (List Char)} {L : Nat}
    (hlen : ∀ idx ∈ indexes, idx.length = L)
    (hval : ∀ idx ∈ indexes, ∀ c ∈ idx, isACGT c = true) :
    ∀ poss : List Nat, (∀ p ∈ poss, p < L) →
      tableLoop indexes poss = some (poss.map (fun p => canonRow indexes p)) := by
  intro poss hposs
  induction poss with
  | nil => rfl
  | cons pos rest ih =>
    have hpos : pos < L := hposs pos (by simp)
    have hcol : columnLoop pos indexes = some (colD indexes pos) :=
      columnLoop_eq (fun idx hi => by rw [hlen idx hi]; exact hpos)
    have hb := countSignal_blue (colD_valid hlen hpos hval)
    have hg := countSignal_green (colD_valid hlen hpos hval)
    have ihh := ih (fun p hp => hposs p (by simp [hp]))
    simp [tableLoop, hcol, hb, hg, ihh, canonRow]

theorem table_eq {indexes : List (List Char)} {L : Nat}
    (hne : indexes ≠ [])
    (hlen : ∀ idx ∈ indexes, idx.length = L)
    (hval : ∀ idx ∈ indexes, ∀ c ∈ idx, isACGT c = true) :
    get_color_balance_table indexes =
      some ((List.range L).map (fun p => canonRow indexes p)) := by
  obtain ⟨i0, rest, rfl⟩ := List.exists_cons_of_ne_nil hne
  have hL : i0.length = L := hlen i0 (by simp)
  have hloop := tableLoop_eq hlen hval (List.range L) (fun p hp => List.mem_range.mp hp)
  simp only [get_color_balance_table, if_neg (by simp : ¬ (i0 :: rest = [])),
    List.headD_cons, hL, hloop]

end XLeap

namespace XLeap

/-! ### The parser -/

theorem cleanLoop_eq :
    ∀ l : List (List Char),
      cleanLoop l = (l.map (fun idx => pyUpper (pyStrip idx))).filter
        (fun c => !c.isEmpty && c.all isACGT) := by
  intro l
  induction l with
  | nil => rfl
  | cons idx rest ih =>
    by_cases he : pyUpper (pyStrip idx) = []
    · simp [cleanLoop, he, List.filter_cons, List.isEmpty_iff, ih]
    · by_cases ha : (pyUpper (pyStrip idx)).all isACGT
      · simp [cleanLoop, he, ha, List.filter_cons, List.isEmpty_iff, ih]
      · simp [cleanLoop, he, ha, List.filter_cons, List.isEmpty_iff, ih]

theorem isACGT_isUpper {c : Char} (h : isACGT c = true) : c.isUpper = true := by
  rcases isACGT_cases h with hb | hb | hb | hb <;> subst hb <;> decide

theorem parse_mem {s : List Char} {t : List Char} (ht : t ∈ parse_indexes s) :
    t ≠ [] ∧ t.all isACGT = true := by
  rw [parse_indexes, cleanLoop_eq] at ht
  have := List.of_mem_filter ht
  simp only [Bool.and_eq_true, Bool.not_eq_true] at this
  obtain ⟨hne, hall⟩ := this
  refine ⟨?_, hall⟩
  intro hnil
  rw [hnil] at hne
  simp at hne

/-! ### Distinctness of the recommendation messages -/

theorem recDark_ne_recLowDiversity (position n : Nat) :
    recDark position ≠ recLowDiversity position n := by
  intro h
  have hd := congrArg String.data h
  simp only [recDark, recLowDiversity, String.data_append, List.append_assoc] at hd
  have h2 := List.append_cancel_left hd
  have h3 := List.append_cancel_left h2
  simp at h3

theorem recNoBlue_ne_recLowDiversity (position n : Nat) :
    recNoBlue position ≠ recLowDiversity position n := by
  intro h
  have hd := congrArg String.data h
  simp only [recNoBlue, recLowDiversity, String.data_append, List.append_assoc] at hd
  have h2 := List.append_cancel_left hd
  have h3 := List.append_cancel_left h2
  simp at h3

theorem recNoGreen_ne_recLowDiversity (position n : Nat) :
    recNoGreen position ≠ recLowDiversity position n := by
  intro h
  have hd := congrArg String.data h
  simp only [recNoGreen, recLowDiversity, String.data_append, List.append_assoc] at hd
  have h2 := List.append_cancel_left hd
  have h3 := List.append_cancel_left h2
  simp at h3

end XLeap

namespace XLeap

/-! ### Claim theorems -/

/-- C2: for every position analyzed over a non-empty all-ACGT column,
`has_blue` holds iff some base is A or C, `has_green` holds iff some base
is C or T, and `is_balanced` equals `has_blue && has_green`. -/
theorem check_position_channel_law (position : Nat) (bases : List Char)
    (hne : bases ≠ [])
    (hval : ∀ c ∈ bases, isACGT c = true) :
    ∃ p, check_position_balance position bases = some p ∧
      p.has_blue = bases.any (fun c => c == 'A' || c == 'C') ∧
      p.has_green = bases.any (fun c => c == 'C' || c == 'T') ∧
      p.is_balanced = (p.has_blue && p.has_green) :=
  ⟨canonPB position bases, check_eq position hval, rfl, rfl, rfl⟩

/-- Witness for C2 at the concrete column G,C. -/
theorem check_position_channel_law_witness :
    ∃ p, check_position_balance 0 ['G', 'C'] = some p ∧
      p.has_blue = List.any ['G', 'C'] (fun c => c == 'A' || c == 'C') ∧
      p.has_green = List.any ['G', 'C'] (fun c => c == 'C' || c == 'T') ∧
      p.is_balanced = (p.has_blue && p.has_green) :=
  check_position_channel_law 0 ['G', 'C'] (by decide) (by decide)

/-- C5: at most one recommendation, by first-matching-rule priority
(dark, then no blue, then no green, then low diversity only when
balanced), and the diversity message never appears on an unbalanced
position. -/
theorem recommendation_policy (position : Nat) (bases : List Char)
    (hne : bases ≠ [])
    (hval : ∀ c ∈ bases, isACGT c = true) :
    ∃ p, check_position_balance position bases = some p ∧
      (p.has_blue = false → p.has_green = false →
        p.recommendation = some (recDark position)) ∧
      (p.has_blue = false → p.has_green = true →
        p.recommendation = some (recNoBlue position)) ∧
      (p.has_blue = true → p.has_green = false →
        p.recommendation = some (recNoGreen position)) ∧
      (p.is_balanced = true → p.unique_bases < 2 →
        p.recommendation = some (recLowDiversity position p.unique_bases)) ∧
      (p.is_balanced = true → 2 ≤ p.unique_bases → p.recommendation = none) ∧
      (p.is_balanced = false →
        ∀ n, p.recommendation ≠ some (recLowDiversity position n)) := by
  refine ⟨canonPB position bases, check_eq position hval, ?_, ?_, ?_, ?_, ?_, ?_⟩
  · intro h1 h2
    simp only [canonPB] at h1 h2 ⊢
    simp [recOf, h1, h2]
  · intro h1 h2
    simp only [canonPB] at h1 h2 ⊢
    simp [recOf, h1, h2]
  · intro h1 h2
    simp only [canonPB] at h1 h2 ⊢
    simp [recOf, h1, h2]
  · intro h1 h2
    simp only [canonPB] at h1 h2 ⊢
    simp [recOf, h1, h2]
  · intro h1 h2
    simp only [canonPB] at h1 h2 ⊢
    simp [recOf, h1, Nat.not_lt.mpr h2]
  · intro h1 n hcontra
    simp only [canonPB] at h1 hcontra
    cases hhb : hasBlueB bases <;> cases hhg : hasGreenB bases
    · simp [recOf, hhb, hhg] at hcontra
      exact recDark_ne_recLowDiversity position n hcontra
    · simp [recOf, hhb, hhg] at hcontra
      exact recNoBlue_ne_recLowDiversity position n hcontra
    · simp [recOf, hhb, hhg] at hcontra
      exact recNoGreen_ne_recLowDiversity position n hcontra
    · rw [hhb, hhg] at h1
      simp at h1

/-- Witness for C5 at the concrete all-dark column G. -/
theorem recommendation_policy_witness :
    ∃ p, check_position_balance 3 ['G'] = some p ∧
      (p.has_blue = false → p.has_green = false →
        p.recommendation = some (recDark 3)) ∧
      (p.has_blue = false → p.has_green = true →
        p.recommendation = some (recNoBlue 3)) ∧
      (p.has_blue = true → p.has_green = false →
        p.recommendation = some (recNoGreen 3)) ∧
      (p.is_balanced = true → p.unique_bases < 2 →
        p.recommendation = some (recLowDiversity 3 p.unique_bases)) ∧
      (p.is_balanced = true → 2 ≤ p.unique_bases → p.recommendation = none) ∧
      (p.is_balanced = false →
        ∀ n, p.recommendation ≠ some (recLowDiversity 3 n)) :=
  recommendation_policy 3 ['G'] (by decide) (by decide)

/-- C10: on the sequence list ["N"] the validator raises a key-lookup
error (`none`) because the position analyzer indexes `XLEAP_COLORS`
directly, although the defensive `get_color_profile` lookup would have
returned the both-false Unknown profile. -/
theorem validate_unknown_base_raises :
    validate_indexes [['N']] = none ∧
    check_position_balance 0 ['N'] = none ∧
    XLEAP_COLORS 'N' = none ∧
    get_color_profile 'N' = { blue := false, green := false, label := "Unknown" } :=
  ⟨by decide, by decide, by decide, by decide⟩

end XLeap

namespace XLeap

/-- C1: on a non-empty equal-length all-ACGT collection, `is_valid` holds
iff `failed_positions` is empty, and `failed_positions` lists exactly the
1-based numbers of the unbalanced positions, in ascending order. -/
theorem validate_failed_positions_exact (indexes : List (List Char)) (L : Nat)
    (hne : indexes ≠ [])
    (hlen : ∀ idx ∈ indexes, idx.length = L)
    (hval : ∀ idx ∈ indexes, ∀ c ∈ idx, isACGT c = true) :
    ∃ r, validate_indexes indexes = some r ∧
      (r.is_valid = true ↔ r.failed_positions = []) ∧
      r.failed_positions =
        (r.positions.filter (fun p => !p.is_balanced)).map (fun p => p.position) ∧
      r.positions.map (fun p => p.position) =
        (List.range r.total_positions).map (fun i => i + 1) ∧
      List.Sorted (fun a b => a < b) r.failed_positions := by
  refine ⟨validateResult indexes L, validate_eq hne hlen hval, ?_, ?_, ?_, ?_⟩
  · simp [validateResult, List.length_eq_zero]
  · simp [validateResult]
  · simp [validateResult, List.map_map, Function.comp, canonPB]
  · have hmapped :
        ((List.range L).map (fun p => canonPB p (colD indexes p))).map (fun p => p.position) =
          (List.range L).map (fun i => i + 1) := by
      simp [List.map_map, Function.comp, canonPB]
    have hsub :
        List.Sublist
          ((((List.range L).map (fun p => canonPB p (colD indexes p))).filter
              (fun r => !r.is_balanced)).map (fun p => p.position))
          (((List.range L).map (fun p => canonPB p (colD indexes p))).map (fun p => p.position)) :=
      (List.filter_sublist _).map _
    rw [hmapped] at hsub
    have hsorted : List.Sorted (fun a b => a < b) ((List.range L).map (fun i => i + 1)) := by
      rw [List.Sorted, List.pairwise_map]
      exact (List.pairwise_lt_range L).imp (fun h => by omega)
    exact hsorted.sublist hsub

/-- Witness for C1 at the concrete collection AC, TG. -/
theorem validate_failed_positions_exact_witness :
    ∃ r, validate_indexes [['A', 'C'], ['T', 'G']] = some r ∧
      (r.is_valid = true ↔ r.failed_positions = []) ∧
      r.failed_positions =
        (r.positions.filter (fun p => !p.is_balanced)).map (fun p => p.position) ∧
      r.positions.map (fun p => p.position) =
        (List.range r.total_positions).map (fun i => i + 1) ∧
      List.Sorted (fun a b => a < b) r.failed_positions :=
  validate_failed_positions_exact [['A', 'C'], ['T', 'G']] 2 (by decide) (by decide) (by decide)

/-- C7: the empty collection and the length-mismatched collection are
reported as degenerate result objects with no per-position analysis. -/
theorem validate_degenerate_cases :
    validate_indexes [] =
      some ⟨false, 0, [], [], ["No indexes provided."], "No indexes to validate."⟩ ∧
    ∀ indexes : List (List Char),
      1 < ((indexes.map List.length).dedup).length →
      validate_indexes indexes =
        some ⟨false, 0, [], [],
          [lengthMismatchWarning ((indexes.map List.length).dedup)],
          "Index length mismatch."⟩ := by
  refine ⟨rfl, ?_⟩
  intro indexes hd
  have hne : indexes ≠ [] := by
    intro h
    rw [h] at hd
    simp at hd
  obtain ⟨i0, rest, rfl⟩ := List.exists_cons_of_ne_nil hne
  rw [List.map_cons] at hd
  simp [validate_indexes, hd]

/-- Witness for C7 at the concrete mismatched collection A, AT. -/
theorem validate_degenerate_cases_witness :
    validate_indexes [['A'], ['A', 'T']] =
      some ⟨false, 0, [], [], [lengthMismatchWarning [1, 2]], "Index length mismatch."⟩ :=
  validate_degenerate_cases.2 [['A'], ['A', 'T']] (by decide)

/-- C8: a singleton collection gets the single-index warning inserted in
front of all position-derived warnings, and the warning does not affect
`is_valid`, which remains emptiness of `failed_positions`. -/
theorem single_index_warning_first (s : List Char)
    (hval : ∀ c ∈ s, isACGT c = true) :
    ∃ r, validate_indexes [s] = some r ∧
      r.warnings = singleIndexWarning :: r.positions.filterMap (fun p => p.recommendation) ∧
      (r.is_valid = true ↔ r.failed_positions = []) ∧
      ((∀ p ∈ r.positions, p.is_balanced = true) → r.is_valid = true) := by
  have hlen : ∀ idx ∈ [s], idx.length = s.length := by simp
  have hv : ∀ idx ∈ [s], ∀ c ∈ idx, isACGT c = true := by simpa using hval
  refine ⟨validateResult [s] s.length, validate_eq (by simp) hlen hv, ?_, ?_, ?_⟩
  · simp [validateResult]
  · simp [validateResult, List.length_eq_zero]
  · intro hall
    have hfil :
        ((validateResult [s] s.length).positions.filter (fun r => !r.is_balanced)) = [] :=
      List.filter_eq_nil.mpr (fun p hp => by simp [hall p hp])
    simp only [validateResult] at hfil ⊢
    simp [hfil]

/-- Witness for C8 at the concrete singleton C: the warning is in front
and the result is still valid. -/
theorem single_index_warning_first_witness :
    (∃ r, validate_indexes [['C']] = some r ∧
      r.warnings = singleIndexWarning :: r.positions.filterMap (fun p => p.recommendation) ∧
      (r.is_valid = true ↔ r.failed_positions = []) ∧
      ((∀ p ∈ r.positions, p.is_balanced = true) → r.is_valid = true)) ∧
    (validate_indexes [['C']]).map (fun r => r.is_valid) = some true :=
  ⟨single_index_warning_first ['C'] (by decide), by decide⟩

end XLeap

namespace XLeap

/-- C4: on a non-empty equal-length all-ACGT collection, the display
table and the validator agree position by position on `is_balanced`,
although each derives it independently. -/
theorem table_validate_balance_agree (indexes : List (List Char)) (L : Nat)
    (hne : indexes ≠ [])
    (hlen : ∀ idx ∈ indexes, idx.length = L)
    (hval : ∀ idx ∈ indexes, ∀ c ∈ idx, isACGT c = true) :
    ∃ t r, get_color_balance_table indexes = some t ∧
      validate_indexes indexes = some r ∧
      t.length = L ∧ r.positions.length = L ∧
      ∀ i (hi : i < t.length) (hi2 : i < r.positions.length),
        (t.get ⟨i, hi⟩).is_balanced = ((r.positions.get ⟨i, hi2⟩)).is_balanced := by
  refine ⟨_, _, table_eq hne hlen hval, validate_eq hne hlen hval, by simp,
    by simp [validateResult], ?_⟩
  intro i hi hi2
  simp only [validateResult] at hi2 ⊢
  simp only [List.length_map, List.length_range] at hi hi2
  simp [List.get_eq_getElem, List.getElem_map, List.getElem_range, canonRow_balanced]

/-- Witness for C4 at the concrete collection CA, AG. -/
theorem table_validate_balance_agree_witness :
    ∃ t r, get_color_balance_table [['C', 'A'], ['A', 'G']] = some t ∧
      validate_indexes [['C', 'A'], ['A', 'G']] = some r ∧
      t.length = 2 ∧ r.positions.length = 2 ∧
      ∀ i (hi : i < t.length) (hi2 : i < r.positions.length),
        (t.get ⟨i, hi⟩).is_balanced = ((r.positions.get ⟨i, hi2⟩)).is_balanced :=
  table_validate_balance_agree [['C', 'A'], ['A', 'G']] 2 (by decide) (by decide) (by decide)

/-- C3: the parser picks exactly one separator by priority over the
stripped text — newline, else comma, else tab, else the whole text as a
single candidate — so a text with both newlines and commas splits only
on newline. -/
theorem parse_separator_priority (s : List Char) :
    (pyContains (pyStrip s) '\n' = true →
      parse_indexes s = cleanLoop (splitChar '\n' (pyStrip s))) ∧
    (pyContains (pyStrip s) '\n' = false → pyContains (pyStrip s) ',' = true →
      parse_indexes s = cleanLoop (splitChar ',' (pyStrip s))) ∧
    (pyContains (pyStrip s) '\n' = false → pyContains (pyStrip s) ',' = false →
      pyContains (pyStrip s) '\t' = true →
      parse_indexes s = cleanLoop (splitChar '\t' (pyStrip s))) ∧
    (pyContains (pyStrip s) '\n' = false → pyContains (pyStrip s) ',' = false →
      pyContains (pyStrip s) '\t' = false →
      parse_indexes s = cleanLoop [pyStrip s]) ∧
    (pyContains (pyStrip s) '\n' = true → pyContains (pyStrip s) ',' = true →
      parse_indexes s = cleanLoop (splitChar '\n' (pyStrip s))) := by
  refine ⟨?_, ?_, ?_, ?_, ?_⟩
  · intro h1
    simp [parse_indexes, rawTokens, h1]
  · intro h1 h2
    simp [parse_indexes, rawTokens, h1, h2]
  · intro h1 h2 h3
    simp [parse_indexes, rawTokens, h1, h2, h3]
  · intro h1 h2 h3
    simp [parse_indexes, rawTokens, h1, h2, h3]
  · intro h1 h2
    simp [parse_indexes, rawTokens, h1]

/-- Witness for C3 at a text containing both a comma and a newline: it
splits on the newline, and the comma-carrying candidate is then dropped
by the character filter. -/
theorem parse_separator_priority_witness :
    parse_indexes "AC,GT\nTG".data = cleanLoop (splitChar '\n' (pyStrip "AC,GT\nTG".data)) ∧
    parse_indexes "AC,GT\nTG".data = [['T', 'G']] :=
  ⟨(parse_separator_priority "AC,GT\nTG".data).2.2.2.2 (by decide) (by decide), by decide⟩

/-- C9: every token the parser outputs is non-empty, uppercase and
all-ACGT; other tokens are dropped silently, and the accepted tokens
keep their input order (the output is an order-preserving filter of the
cleaned candidates). -/
theorem parse_tokens_clean (s : List Char) :
    parse_indexes s = ((rawTokens s).map (fun idx => pyUpper (pyStrip idx))).filter
      (fun c => !c.isEmpty && c.all isACGT) ∧
    ∀ t ∈ parse_indexes s, t ≠ [] ∧ t.all isACGT = true ∧ t.all Char.isUpper = true := by
  refine ⟨cleanLoop_eq (rawTokens s), ?_⟩
  intro t ht
  obtain ⟨hne, hall⟩ := parse_mem ht
  refine ⟨hne, hall, ?_⟩
  rw [List.all_eq_true] at hall ⊢
  exact fun c hc => isACGT_isUpper (hall c hc)

/-- Witness for C9 on a text with a lowercase token, an invalid token and
surrounding whitespace. -/
theorem parse_tokens_clean_witness :
    parse_indexes "ac,g1t, tt".data = [['A', 'C'], ['T', 'T']] ∧
    (['A', 'C'] ≠ ([] : List Char) ∧ List.all ['A', 'C'] isACGT = true ∧
      List.all ['A', 'C'] Char.isUpper = true) :=
  ⟨by decide, (parse_tokens_clean "ac,g1t, tt".data).2 ['A', 'C'] (by decide)⟩

end XLeap

namespace XLeap

/-- C6: for every input text `validate_from_text` returns a result and
never fails: the parser only lets all-ACGT tokens through, so the
position analysis cannot hit a base without a channel profile, and the
degenerate parses (empty, length-mismatched) come back as result objects
with `is_valid = false`. -/
theorem validate_from_text_total (s : List Char) :
    ∃ r, validate_from_text s = some r ∧
      (parse_indexes s = [] → r.is_valid = false) ∧
      (1 < ((parse_indexes s).map List.length).dedup.length → r.is_valid = false) := by
  by_cases hp : parse_indexes s = []
  · refine ⟨⟨false, 0, [], [], ["No indexes provided."], "No indexes to validate."⟩,
      ?_, fun _ => rfl, fun _ => rfl⟩
    rw [validate_from_text, hp]
    rfl
  · by_cases hd : 1 < ((parse_indexes s).map List.length).dedup.length
    · obtain ⟨i0, rest, htoks⟩ := List.exists_cons_of_ne_nil hp
      refine ⟨⟨false, 0, [], [],
        [lengthMismatchWarning (((parse_indexes s).map List.length).dedup)],
        "Index length mismatch."⟩, ?_, fun hc => absurd hc hp, fun _ => rfl⟩
      rw [validate_from_text]
      rw [htoks] at hd ⊢
      rw [List.map_cons] at hd
      simp [validate_indexes, hd]
    · obtain ⟨t0, ts, htoks⟩ := List.exists_cons_of_ne_nil hp
      have hvaltoks : ∀ idx ∈ parse_indexes s, ∀ c ∈ idx, isACGT c = true := by
        intro idx hidx
        have := (parse_mem hidx).2
        rw [List.all_eq_true] at this
        exact this
      have ht0 : t0 ∈ parse_indexes s := by
        rw [htoks]
        simp
      have hlen : ∀ idx ∈ parse_indexes s, idx.length = t0.length := by
        intro idx hidx
        exact eq_of_dedup_len hd (List.length idx)
          (List.mem_map_of_mem List.length hidx) (List.length t0)
          (List.mem_map_of_mem List.length ht0)
      refine ⟨validateResult (parse_indexes s) t0.length, ?_,
        fun hc => absurd hc hp, fun hc => absurd hc hd⟩
      rw [validate_from_text]
      exact validate_eq hp hlen hvaltoks

/-- Witness for C6 at a text whose tokens are all dropped: the parse is
empty and the result object reports invalid rather than an error. -/
theorem validate_from_text_total_witness :
    (validate_from_text "Q7,Z".data).map (fun r => r.is_valid) = some false := by
  obtain ⟨r, heq, hemp, _⟩ := validate_from_text_total "Q7,Z".data
  rw [heq]
  simp [hemp (by decide)]

end XLeap
